import Mathlib

/-!
Verification of the currency-normalization core of `notebooks/utils/utils.py`
(`currency_to_float`): a shallow embedding of the function and of the Python
string/number primitives it relies on (`str.strip`, `str.lower`,
`str.replace`, `float(str)`), followed by theorems settling the spec's claims.

Python float values are modelled as exact rationals plus explicit
constructors for the special values (the two infinities and NaN, Python's
missing marker `np.nan`); every finite value produced by the modelled code
is exactly representable.  The one operation where binary64 finiteness
matters is `float(value)` on an `int` (utils.py:66, *outside* the
`try`/`except`): it is modelled exactly by `floatOfInt` — round to nearest,
ties to even, at 53 significant bits, with `none` standing for the uncaught
`OverflowError` raised when the rounded magnitude reaches `2^1024`.
Accordingly the top-level function returns `Option PyFloat`, `none` being
the escaped-exception outcome.
-/

namespace CurrencyNorm

/-- The whitespace characters stripped by Python `str.strip()` (ASCII range). -/
def isPySpace (c : Char) : Bool :=
  c == ' ' || c == '\t' || c == '\n' || c == '\r' || c == '\x0b' || c == '\x0c'

/-- Python `str.strip()`: drop leading and trailing whitespace. -/
def pyStrip (l : List Char) : List Char :=
  ((l.dropWhile isPySpace).reverse.dropWhile isPySpace).reverse

/-- Python `str.lower()` (ASCII range). -/
def pyLower (l : List Char) : List Char :=
  l.map Char.toLower

/-- Python `s.replace(c, "")` for a single-character pattern `c`:
every occurrence of `c` is removed. -/
def pyReplace (c : Char) (l : List Char) : List Char :=
  l.filter (fun a => !(a == c))

/-- The sentinel set `{"na", "n/a", "null", "none"}` from the source
(the empty string is handled by the separate `not s` test). -/
def missingTokens : List (List Char) :=
  ["na".toList, "n/a".toList, "null".toList, "none".toList]

/-- Value of a list of decimal digits, most significant first. -/
def digitsToNat (l : List Char) : Nat :=
  l.foldl (fun a c => a * 10 + (c.toNat - 48)) 0

/-- The exact rational `(-1)^neg * m * 10^e`, built without rational
multiplication (the sign and the power of ten are applied at the integer
level, a negative exponent becomes the denominator of `mkRat`). -/
def decValue (neg : Bool) (m : Nat) (e : Int) : Rat :=
  let n : Int := if neg then -(m : Int) else (m : Int)
  if 0 ≤ e then ((n * (10 : Int) ^ e.toNat : Int) : Rat)
  else mkRat n ((10 : Nat) ^ (-e).toNat)

/-- Exponent part of Python's float grammar: an optional sign followed by at
least one digit, consuming the whole remaining input. -/
def parseExp (l : List Char) : Option Int :=
  match l with
  | '+' :: r => if r ≠ [] ∧ r.all Char.isDigit then some (digitsToNat r) else none
  | '-' :: r => if r ≠ [] ∧ r.all Char.isDigit then some (-(digitsToNat r : Int)) else none
  | r => if r ≠ [] ∧ r.all Char.isDigit then some (digitsToNat r) else none

/-- Unsigned decimal part of Python's float grammar:
`digits [. digits] [exp]` or `. digits [exp]`, with at least one mantissa
digit; underscores have already been removed.  Returns the mantissa digits
as a natural number together with the decimal exponent (exponent part minus
the number of fractional digits). -/
def parseDecimal (l : List Char) : Option (Nat × Int) :=
  let ip := l.takeWhile Char.isDigit
  let rest := l.dropWhile Char.isDigit
  match rest with
  | [] => if ip = [] then none else some (digitsToNat ip, 0)
  | '.' :: rest2 =>
    let fp := rest2.takeWhile Char.isDigit
    let rest3 := rest2.dropWhile Char.isDigit
    if ip = [] ∧ fp = [] then none
    else
      match rest3 with
      | [] => some (digitsToNat (ip ++ fp), -(fp.length : Int))
      | e :: rest4 =>
        if e = 'e' ∨ e = 'E' then
          (parseExp rest4).map (fun k => (digitsToNat (ip ++ fp), k - (fp.length : Int)))
        else none
  | e :: rest2 =>
    if (e = 'e' ∨ e = 'E') ∧ ip ≠ [] then
      (parseExp rest2).map (fun k => (digitsToNat ip, k))
    else none

/-- PEP 515 check used by Python's `float(str)`: every underscore must be
directly between two digits.  `prev` is the character before the current
position. -/
def underscoresAux (prev : Char) : List Char → Bool
  | [] => true
  | c :: rest =>
    if c = '_' then
      (match rest with
       | [] => false
       | d :: _ => prev.isDigit && d.isDigit) && underscoresAux c rest
    else underscoresAux c rest

/-- Every `_` in the list is immediately preceded and followed by a digit. -/
def underscoresOk : List Char → Bool
  | [] => true
  | '_' :: _ => false
  | c :: rest => underscoresAux c rest

/-- Bit length of a natural number (`int.bit_length()` in Python), computed
with the number itself as fuel: a number bounds its own count of halvings. -/
def bitLenAux : Nat → Nat → Nat
  | 0, _ => 0
  | fuel + 1, n => if n = 0 then 0 else bitLenAux fuel (n / 2) + 1

/-- `bitLen n` is the number of binary digits of `n` (0 for 0). -/
def bitLen (n : Nat) : Nat :=
  bitLenAux n n

/-- Round the magnitude `m` to a multiple of `2 ^ s`, to nearest with ties
to even — the binary64 significand rounding CPython applies when converting
an `int` wider than 53 bits to a `float`. -/
def roundMantissa (m s : Nat) : Nat :=
  if 2 * (m % 2 ^ s) > 2 ^ s ∨ (2 * (m % 2 ^ s) = 2 ^ s ∧ (m / 2 ^ s) % 2 = 1) then
    m / 2 ^ s + 1
  else m / 2 ^ s

/-- CPython `float(value)` on an `int` (utils.py:66): magnitudes of at most
53 bits convert exactly; wider magnitudes are rounded to 53 significant bits
(to nearest, ties to even); `none` models the `OverflowError` raised when
the rounded magnitude reaches `2 ^ 1024` — uncaught in the source, since
line 66 sits outside the `try`/`except`. -/
def floatOfInt (n : Int) : Option Rat :=
  if bitLen n.natAbs ≤ 53 then some ((n : Int) : Rat)
  else
    if roundMantissa n.natAbs (bitLen n.natAbs - 53) * 2 ^ (bitLen n.natAbs - 53)
        < 2 ^ 1024 then
      some (((if n < 0 then
            -((roundMantissa n.natAbs (bitLen n.natAbs - 53)
                * 2 ^ (bitLen n.natAbs - 53) : Nat) : Int)
          else
            ((roundMantissa n.natAbs (bitLen n.natAbs - 53)
                * 2 ^ (bitLen n.natAbs - 53) : Nat) : Int)) : Int) : Rat)
    else none

/-- A CPython `float` value: an exact finite rational, a signed infinity, or
NaN (which doubles as the `np.nan` missing marker in the source). -/
inductive PyFloat where
  | finite (q : Rat)
  | inf (neg : Bool)
  | nan
deriving DecidableEq, Repr

/-- `true` exactly on finite float values. -/
def PyFloat.isFinite : PyFloat → Bool
  | .finite _ => true
  | _ => false

/-- Python `float(s)` on a string: strip whitespace, take an optional sign,
accept the case-insensitive special names `inf`/`infinity`/`nan`, otherwise
check underscore placement, remove underscores and parse the decimal
grammar.  `none` models the `ValueError` raised on malformed input. -/
def pyFloatOfString (l : List Char) : Option PyFloat :=
  let t := pyStrip l
  let (neg, body) :=
    match t with
    | '+' :: r => (false, r)
    | '-' :: r => (true, r)
    | r => (false, r)
  let low := pyLower body
  if low = "inf".toList ∨ low = "infinity".toList then some (.inf neg)
  else if low = "nan".toList then some .nan
  else if underscoresOk body then
    (parseDecimal (body.filter (fun c => !(c == '_')))).map
      (fun p => .finite (decValue neg p.1 p.2))
  else none

/-- The shapes of raw input values reaching `currency_to_float`:
Python `None`, an `int`, a `float` (possibly NaN or infinite), a `bool`
(a subclass of `int` in Python), or a `str`. -/
inductive RawValue where
  | none
  | int (n : Int)
  | float (f : PyFloat)
  | bool (b : Bool)
  | str (s : String)
deriving DecidableEq, Repr

/-- `currency_to_float` from `notebooks/utils/utils.py`, line by line;
`none` is an exception escaping the function (only possible on the `int`
branch, whose `float(value)` at line 66 is outside the `try`/`except`):

* `value is None or (isinstance(value, float) and np.isnan(value))` → `np.nan`;
* `isinstance(value, (int, float))` → `float(value)` — identity on floats,
  `floatOfInt` on ints (rounding, and `OverflowError` out of double range);
  booleans are the ints `1`/`0`, so `True → 1.0`, `False → 0.0`;
* otherwise `s = str(value).strip()`; if `not s or s.lower() in
  {"na","n/a","null","none"}` → `np.nan`;
* `s = s.replace("$", "").replace(",", "").strip()`; `float(s)`,
  with `ValueError`/`OverflowError` caught and turned into `np.nan`. -/
def currency_to_float : RawValue → Option PyFloat
  | .none => some .nan
  | .float PyFloat.nan => some .nan
  | .float f => some f
  | .int n => (floatOfInt n).map PyFloat.finite
  | .bool b => (floatOfInt (if b then 1 else 0)).map PyFloat.finite
  | .str s =>
    if pyStrip s.toList = [] ∨ pyLower (pyStrip s.toList) ∈ missingTokens then some .nan
    else
      match pyFloatOfString (pyStrip (pyReplace ',' (pyReplace '$' (pyStrip s.toList)))) with
      | some f => some f
      | Option.none => some .nan

/-- Modelled from the spec: the batch operation `normalize` is not a named
function under `src/` (the notebooks apply `currency_to_float` over a column);
the spec defines it as the element-wise application of `normalize_one`
(`currency_to_float`) over an ordered finite sequence. -/
def normalize (xs : List RawValue) : List (Option PyFloat) :=
  xs.map currency_to_float

/-- Modelled from the spec: the parsing grammar the spec states in step (e) —
"an optional leading `-` sign and an optional decimal point (standard decimal
numeral grammar)" — i.e. no plus sign, no exponent part, no underscores and
no special names.  Used to compare the spec's stated grammar with the
grammar the code actually accepts. -/
def spec_decimal_parse (l : List Char) : Option Rat :=
  let sgn := match l with
    | '-' :: r => (true, r)
    | r => (false, r)
  let ip := sgn.2.takeWhile Char.isDigit
  let rest := sgn.2.dropWhile Char.isDigit
  match rest with
  | [] => if ip = [] then none else some (decValue sgn.1 (digitsToNat ip) 0)
  | '.' :: fp =>
    if fp.all Char.isDigit ∧ ¬(ip = [] ∧ fp = []) then
      some (decValue sgn.1 (digitsToNat (ip ++ fp)) (-(fp.length : Int)))
    else none
  | _ => none

/-- The spec's step-by-step description of the textual branch (steps (a)–(e)
of §4.1), with step (e)'s grammar amended to the grammar Python's `float`
actually accepts (`pyFloatOfString`): trim, compare the lower-cased trimmed
string against empty/sentinels, remove every literal `$` and `,` (and only
those), trim again, parse; a parse failure becomes the missing marker. -/
def spec_normalize_text (s : String) : PyFloat :=
  if pyLower (pyStrip s.toList) = [] ∨ pyLower (pyStrip s.toList) ∈ missingTokens then .nan
  else
    match pyFloatOfString
        (pyStrip ((pyStrip s.toList).filter (fun c => !(c == '$') && !(c == ',')))) with
    | some f => f
    | Option.none => .nan

/-- An already-produced float value fed back into `currency_to_float` comes
back unchanged (NaN hits the missing branch and is returned as NaN, every
other float is returned by the numeric-passthrough branch; `float(value)`
on a float is the identity, so this branch cannot raise). -/
lemma ctf_float_id (f : PyFloat) : currency_to_float (RawValue.float f) = some f := by
  cases f <;> rfl

/-- The textual branch never raises: every string input produces a value
(`float(s)` at line 76 is inside the `try`/`except`, and a failed parse
becomes `np.nan`). -/
lemma ctf_str_total (s : String) : ∃ f, currency_to_float (RawValue.str s) = some f := by
  simp only [currency_to_float]
  by_cases h : pyStrip s.toList = [] ∨ pyLower (pyStrip s.toList) ∈ missingTokens
  · rw [if_pos h]
    exact ⟨PyFloat.nan, rfl⟩
  · rw [if_neg h]
    cases hp : pyFloatOfString (pyStrip (pyReplace ',' (pyReplace '$' (pyStrip s.toList)))) with
    | none => exact ⟨PyFloat.nan, rfl⟩
    | some f => exact ⟨f, rfl⟩

/-- A number below `2 ^ k` has at most `k` binary digits (fuel version). -/
lemma bitLenAux_le_of_lt : ∀ (fuel n k : Nat), n ≤ fuel → n < 2 ^ k → bitLenAux fuel n ≤ k := by
  intro fuel
  induction fuel with
  | zero =>
    intro n k _ _
    simp [bitLenAux]
  | succ fuel ih =>
    intro n k hf hk
    by_cases hn : n = 0
    · simp [bitLenAux, hn]
    · have hpos : 0 < n := Nat.pos_of_ne_zero hn
      have h2 : n / 2 ≤ fuel := by
        have hlt : n / 2 < n := Nat.div_lt_self hpos (by norm_num)
        omega
      cases k with
      | zero =>
        norm_num at hk
        omega
      | succ j =>
        have h21 : n < 2 ^ j * 2 := by
          rw [← pow_succ]
          exact hk
        have hdiv : n / 2 < 2 ^ j := by omega
        simp only [bitLenAux, hn, if_false]
        have := ih (n / 2) j h2 hdiv
        omega

/-- A number below `2 ^ k` has at most `k` binary digits. -/
lemma bitLen_le_of_lt {m k : Nat} (h : m < 2 ^ k) : bitLen m ≤ k :=
  bitLenAux_le_of_lt m m k (Nat.le_refl m) h

/-- A number of at least `2 ^ k` has more than `k` binary digits
(fuel version). -/
lemma lt_bitLenAux_of_le : ∀ (fuel n k : Nat), n ≤ fuel → 2 ^ k ≤ n → k < bitLenAux fuel n := by
  intro fuel
  induction fuel with
  | zero =>
    intro n k hf hk
    have hp : 0 < 2 ^ k := pow_pos (by norm_num) k
    omega
  | succ fuel ih =>
    intro n k hf hk
    have hp : 0 < 2 ^ k := pow_pos (by norm_num) k
    have hn : ¬n = 0 := by omega
    have hpos : 0 < n := Nat.pos_of_ne_zero hn
    have h2 : n / 2 ≤ fuel := by
      have hlt : n / 2 < n := Nat.div_lt_self hpos (by norm_num)
      omega
    simp only [bitLenAux, hn, if_false]
    cases k with
    | zero => omega
    | succ j =>
      have hj : 2 ^ j ≤ n / 2 := by
        have h1 : 2 ^ j * 2 ≤ n := by
          rw [← pow_succ]
          exact hk
        omega
      have := ih (n / 2) j h2 hj
      omega

/-- A number of at least `2 ^ k` has more than `k` binary digits. -/
lemma lt_bitLen_of_le {n k : Nat} (h : 2 ^ k ≤ n) : k < bitLen n :=
  lt_bitLenAux_of_le n n k (Nat.le_refl n) h

/-- A nonzero number is at least `2` to its bit length less one. -/
lemma two_pow_pred_le_of_pos {m : Nat} (hm : m ≠ 0) : 2 ^ (bitLen m - 1) ≤ m := by
  by_contra hcon
  push_neg at hcon
  have h1 := bitLen_le_of_lt hcon
  have h2 : 0 < bitLen m := lt_bitLen_of_le (by simpa using Nat.pos_of_ne_zero hm)
  omega

/-- Rounding never decreases the truncated quotient. -/
lemma div_le_roundMantissa (m s : Nat) : m / 2 ^ s ≤ roundMantissa m s := by
  unfold roundMantissa
  split <;> omega

/-- An integer of magnitude at least `2 ^ 1077` overflows the conversion:
`float(value)` raises `OverflowError` (the rounded magnitude reaches
`2 ^ 1024`; `1077` is comfortable slack above `1024 + 53`). -/
lemma floatOfInt_overflow {m : Nat} (h : 2 ^ 1077 ≤ m) :
    floatOfInt (m : Int) = Option.none := by
  have hp : 0 < 2 ^ 1077 := pow_pos (by norm_num) 1077
  have hm : m ≠ 0 := by omega
  have hk : 1077 < bitLen m := lt_bitLen_of_le h
  have hnabs : ((m : Int)).natAbs = m := Int.natAbs_ofNat m
  have hov : ¬ (roundMantissa m (bitLen m - 53) * 2 ^ (bitLen m - 53) < 2 ^ 1024) := by
    rw [Nat.not_lt]
    have hq : 2 ^ 52 ≤ m / 2 ^ (bitLen m - 53) := by
      rw [Nat.le_div_iff_mul_le (pow_pos (by norm_num) _)]
      calc 2 ^ 52 * 2 ^ (bitLen m - 53) = 2 ^ (52 + (bitLen m - 53)) := (pow_add 2 52 _).symm
        _ = 2 ^ (bitLen m - 1) := by
            congr 1
            omega
        _ ≤ m := two_pow_pred_le_of_pos hm
    calc (2 : Nat) ^ 1024 ≤ 2 ^ (bitLen m - 1) :=
          Nat.pow_le_pow_right (by norm_num) (by omega)
      _ = 2 ^ 52 * 2 ^ (bitLen m - 53) := by
          rw [← pow_add]
          congr 1
          omega
      _ ≤ (m / 2 ^ (bitLen m - 53)) * 2 ^ (bitLen m - 53) :=
          Nat.mul_le_mul_right _ hq
      _ ≤ roundMantissa m (bitLen m - 53) * 2 ^ (bitLen m - 53) :=
          Nat.mul_le_mul_right _ (div_le_roundMantissa m _)
  unfold floatOfInt
  rw [hnabs]
  rw [if_neg (by omega)]
  rw [if_neg hov]

/-- The first integer above the exact range: `float(2 ** 53 + 1)` rounds to
`2 ** 53` (the tie between `2 ** 53` and `2 ** 53 + 2` is broken to the even
significand). -/
lemma floatOfInt_two_pow53_succ :
    floatOfInt ((2 ^ 53 + 1 : Nat) : Int) = some ((2 ^ 53 : Nat) : Rat) := by
  have hbit : bitLen (2 ^ 53 + 1) = 54 := by
    have h1 : bitLen (2 ^ 53 + 1) ≤ 54 := bitLen_le_of_lt (by norm_num)
    have h2 : 53 < bitLen (2 ^ 53 + 1) := lt_bitLen_of_le (by norm_num)
    omega
  unfold floatOfInt
  rw [Int.natAbs_ofNat, hbit]
  rw [if_neg (by norm_num)]
  rw [show roundMantissa (2 ^ 53 + 1) (54 - 53) = 2 ^ 52 from by decide]
  rw [if_pos (by
    rw [← pow_add]
    exact Nat.pow_lt_pow_right (by norm_num) (by norm_num))]
  rw [if_neg (show ¬ (((2 ^ 53 + 1 : Nat) : Int) < 0) from (Int.natCast_nonneg _).not_lt)]
  norm_num

/-- Wrapping the parse-or-missing fallback in `some` commutes with the
match on the parse result. -/
lemma option_match_some (o : Option PyFloat) :
    (match o with
     | some f => some f
     | Option.none => some PyFloat.nan)
      = some (match o with
              | some f => f
              | Option.none => PyFloat.nan) := by
  cases o <;> rfl

/-- The two `replace` calls of the source remove exactly the characters
`'$'` and `','` and nothing else. -/
lemma pyReplace_dollar_comma (l : List Char) :
    pyReplace ',' (pyReplace '$' l) = l.filter (fun c => !(c == '$') && !(c == ',')) := by
  induction l with
  | nil => rfl
  | cons a t ih =>
    simp only [pyReplace, List.filter] at *
    cases h1 : (a == '$') <;> cases h2 : (a == ',') <;>
      simp [List.filter, h1, h2, ih]

/-- C10: boolean inputs take the numeric-passthrough branch (Python `bool`
is a subclass of `int`), so `currency_to_float(True) = 1.0` and
`currency_to_float(False) = 0.0`. -/
theorem bool_passthrough :
    currency_to_float (RawValue.bool true) = some (PyFloat.finite 1) ∧
    currency_to_float (RawValue.bool false) = some (PyFloat.finite 0) := by
  decide

/-- C7: the only non-success outcome is the missing marker (NaN): an explicit
null, an unrecognized sentinel and malformed text all collapse to the same
marker, and `currency_to_float("invalid")` is that marker — no exception
channel exists (the function is total into `PyFloat`). -/
theorem missing_collapse :
    currency_to_float (RawValue.str "invalid") = some PyFloat.nan ∧
    currency_to_float RawValue.none = currency_to_float (RawValue.str "invalid") ∧
    currency_to_float (RawValue.str "n/a") = currency_to_float (RawValue.str "invalid") ∧
    currency_to_float (RawValue.float PyFloat.nan) = currency_to_float (RawValue.str "invalid") := by
  decide

/-- C9: `currency_to_float` is deterministic and side-effect free — any
number of calls on the same input value produce the same list of identical
results. -/
theorem normalize_deterministic (v : RawValue) (n : Nat) :
    (List.replicate n v).map currency_to_float
      = List.replicate n (currency_to_float v) := by
  simp

/-- C8: normalization is idempotent on its own outputs — every float value
fed back in comes back unchanged (the missing marker maps to the missing
marker), so re-normalizing whatever `currency_to_float` produced yields the
same result. -/
theorem normalize_idempotent :
    (∀ f : PyFloat, currency_to_float (RawValue.float f) = some f) ∧
    ∀ v : RawValue,
      (currency_to_float v).bind (fun f => currency_to_float (RawValue.float f))
        = currency_to_float v := by
  refine ⟨ctf_float_id, ?_⟩
  intro v
  cases hv : currency_to_float v with
  | none => rfl
  | some f => simpa using ctf_float_id f

/-- C6 (counterexample): "widened to floating-point with magnitude
unchanged — no rounding" fails on the integer `2 ^ 53 + 1`: CPython's
`float(value)` rounds it to `2 ^ 53` (binary64 has 53 significand bits), a
different number; and on `2 ^ 2000` the conversion raises an uncaught
`OverflowError` instead of returning at all. -/
theorem numeric_rounding_counterexample :
    currency_to_float (RawValue.int ((2 ^ 53 + 1 : Nat) : Int))
      = some (PyFloat.finite ((2 ^ 53 : Nat) : Rat)) ∧
    ((2 ^ 53 : Nat) : Rat) ≠ ((2 ^ 53 + 1 : Nat) : Rat) ∧
    currency_to_float (RawValue.int ((2 ^ 2000 : Nat) : Int)) = Option.none := by
  refine ⟨?_, by decide, ?_⟩
  · simp only [currency_to_float]
    rw [floatOfInt_two_pow53_succ]
    rfl
  · simp only [currency_to_float]
    rw [floatOfInt_overflow (Nat.pow_le_pow_right (by norm_num) (by norm_num))]
    rfl

/-- C6 (amended): numeric inputs pass through widened to float with
unchanged value for every integer of magnitude below `2 ^ 53` (the exactly
representable range) and for every float input; larger integers are rounded
to 53 significant bits or overflow.  In particular `100 ↦ 100.0`,
`200 ↦ 200.0`, `300.5 ↦ 300.5`. -/
theorem numeric_passthrough :
    (∀ n : Int, n.natAbs < 2 ^ 53 →
      currency_to_float (RawValue.int n) = some (PyFloat.finite (n : Rat))) ∧
    (∀ f : PyFloat, currency_to_float (RawValue.float f) = some f) ∧
    currency_to_float (RawValue.int 100) = some (PyFloat.finite 100) ∧
    currency_to_float (RawValue.int 200) = some (PyFloat.finite 200) ∧
    currency_to_float (RawValue.float (PyFloat.finite (300.5 : Rat)))
      = some (PyFloat.finite (300.5 : Rat)) := by
  refine ⟨?_, ctf_float_id, by decide, by decide, ctf_float_id _⟩
  intro n hn
  simp only [currency_to_float, floatOfInt]
  rw [if_pos (bitLen_le_of_lt hn)]
  rfl

/-- C6 (witness): the in-range integer `300` passes through exactly. -/
theorem numeric_passthrough_witness :
    currency_to_float (RawValue.int 300) = some (PyFloat.finite ((300 : Int) : Rat)) :=
  numeric_passthrough.1 300 (by decide)

/-- C1 (counterexample): the claim fails twice.  On the textual input
`"inf"` the function returns positive infinity — neither finite nor the
missing marker — because Python's `float` accepts the special name `inf`;
and on the numeric input `10 ^ 400` it does not return at all: `float(value)`
at line 66 is outside the `try`/`except` and raises `OverflowError`. -/
theorem totality_finite_counterexample :
    currency_to_float (RawValue.str "inf") = some (PyFloat.inf false) ∧
    (PyFloat.inf false).isFinite = false ∧
    PyFloat.inf false ≠ PyFloat.nan ∧
    currency_to_float (RawValue.int ((10 ^ 400 : Nat) : Int)) = Option.none := by
  refine ⟨by decide, by decide, by decide, ?_⟩
  have h : (2 : Nat) ^ 1077 ≤ 10 ^ 400 := by
    calc (2 : Nat) ^ 1077 ≤ 2 ^ 1200 := Nat.pow_le_pow_right (by norm_num) (by norm_num)
      _ = (2 ^ 3) ^ 400 := by rw [← pow_mul]
      _ ≤ 10 ^ 400 := Nat.pow_le_pow_left (by norm_num) 400
  simp only [currency_to_float]
  rw [floatOfInt_overflow h]
  rfl

/-- C1 (amended): every input either yields a floating-point value —
finite, infinite, or NaN (the missing marker) — or, only for an integer
input whose converted magnitude overflows binary64, raises `OverflowError`;
absent, float, boolean and textual inputs never raise (malformed text
degrades to missing). -/
theorem totality_amended :
    (∀ v : RawValue, (∃ f, currency_to_float v = some f) ∨
        ∃ n, v = RawValue.int n ∧ currency_to_float v = Option.none) ∧
    (∀ s : String, ∃ f, currency_to_float (RawValue.str s) = some f) ∧
    (∀ f : PyFloat, currency_to_float (RawValue.float f) = some f) ∧
    currency_to_float RawValue.none = some PyFloat.nan ∧
    ∀ b : Bool, ∃ f, currency_to_float (RawValue.bool b) = some f := by
  refine ⟨?_, ctf_str_total, ctf_float_id, rfl, fun b => by cases b <;> exact ⟨_, rfl⟩⟩
  intro v
  cases v with
  | none => exact Or.inl ⟨_, rfl⟩
  | int n =>
    cases hn : currency_to_float (RawValue.int n) with
    | none => exact Or.inr ⟨n, rfl, rfl⟩
    | some f => exact Or.inl ⟨f, rfl⟩
  | float f => exact Or.inl ⟨f, ctf_float_id f⟩
  | bool b => cases b <;> exact Or.inl ⟨_, rfl⟩
  | str s => exact Or.inl (ctf_str_total s)

/-- C2 (counterexample): the spec's stated grammar (optional leading `-`,
digits, at most one decimal point) rejects `"1e3"`, so by the claim the
result should be the missing marker; the code parses it with Python's
`float` grammar and returns `1000.0`. -/
theorem spec_grammar_counterexample :
    spec_decimal_parse ("1e3".toList) = Option.none ∧
    currency_to_float (RawValue.str "1e3") = some (PyFloat.finite 1000) ∧
    PyFloat.finite 1000 ≠ PyFloat.nan := by
  decide

/-- C3: the batch operation is the element-wise application of
`currency_to_float`: it preserves length, the i-th output is the conversion
of the i-th input (so no element depends on any other), and the spec's
end-to-end scenario
`["$1,000", "invalid", "$50.25", "", "2,500.75"]` yields
`[1000.0, Missing, 50.25, Missing, 2500.75]`. -/
theorem normalize_elementwise :
    (∀ xs : List RawValue, (normalize xs).length = xs.length) ∧
    (∀ (xs : List RawValue) (i : Nat),
      (normalize xs)[i]? = (xs[i]?).map currency_to_float) ∧
    normalize [RawValue.str "$1,000", RawValue.str "invalid", RawValue.str "$50.25",
               RawValue.str "", RawValue.str "2,500.75"]
      = [some (PyFloat.finite 1000), some PyFloat.nan, some (PyFloat.finite (50.25 : Rat)),
         some PyFloat.nan, some (PyFloat.finite (2500.75 : Rat))] := by
  refine ⟨fun xs => by simp [normalize], fun xs i => by simp [normalize], ?_⟩
  rw [(by rw [Rat.mkRat_eq_div]; norm_num : (50.25 : Rat) = mkRat 201 4),
      (by rw [Rat.mkRat_eq_div]; norm_num : (2500.75 : Rat) = mkRat 10003 4)]
  decide

/-- C5: before parsing, every literal `$` and every literal `,` is removed
from the (trimmed) text and nothing else is (the two `replace` calls equal a
filter on exactly those two characters); hence `"$70.38" ↦ 70.38`,
`"$3,119.39" ↦ 3119.39`, `" $4,375.47 " ↦ 4375.47`, `"-$100" ↦ -100.0` and
`"-$50.25" ↦ -50.25`. -/
theorem currency_stripping :
    (∀ l : List Char, pyReplace ',' (pyReplace '$' l)
        = l.filter (fun c => !(c == '$') && !(c == ','))) ∧
    currency_to_float (RawValue.str "$70.38") = some (PyFloat.finite (70.38 : Rat)) ∧
    currency_to_float (RawValue.str "$3,119.39") = some (PyFloat.finite (3119.39 : Rat)) ∧
    currency_to_float (RawValue.str " $4,375.47 ") = some (PyFloat.finite (4375.47 : Rat)) ∧
    currency_to_float (RawValue.str "-$100") = some (PyFloat.finite (-100 : Rat)) ∧
    currency_to_float (RawValue.str "-$50.25") = some (PyFloat.finite (-50.25 : Rat)) := by
  refine ⟨pyReplace_dollar_comma, ?_, ?_, ?_, ?_, ?_⟩
  · rw [(by rw [Rat.mkRat_eq_div]; norm_num : (70.38 : Rat) = mkRat 3519 50)]; decide
  · rw [(by rw [Rat.mkRat_eq_div]; norm_num : (3119.39 : Rat) = mkRat 311939 100)]; decide
  · rw [(by rw [Rat.mkRat_eq_div]; norm_num : (4375.47 : Rat) = mkRat 437547 100)]; decide
  · decide
  · rw [(by rw [Rat.mkRat_eq_div]; norm_num : (-50.25 : Rat) = mkRat (-201) 4)]; decide

/-- Dropping a satisfying prefix: if every element of `l1` satisfies `p`,
`dropWhile p` on `l1 ++ l2` continues into `l2`. -/
lemma dropWhile_append_of_all {p : Char → Bool} (l2 : List Char) :
    ∀ l1 : List Char, l1.all p = true → (l1 ++ l2).dropWhile p = l2.dropWhile p := by
  intro l1
  induction l1 with
  | nil => intro _; rfl
  | cons a t ih =>
    intro h
    simp only [List.all_cons, Bool.and_eq_true] at h
    simp [List.dropWhile_cons, h.1, ih h.2]

/-- `dropWhile` stops immediately at a head that fails the predicate. -/
lemma dropWhile_cons_of_neg {p : Char → Bool} {a : Char} (l : List Char) (h : p a = false) :
    (a :: l).dropWhile p = a :: l := by
  simp [List.dropWhile_cons, h]

/-- `dropWhile` consumes a list all of whose elements satisfy the predicate. -/
lemma dropWhile_eq_nil_of_all {p : Char → Bool} {l : List Char} (h : l.all p = true) :
    l.dropWhile p = [] := by
  have h2 := dropWhile_append_of_all [] l h
  simpa using h2

/-- Lower-casing fixes every whitespace character. -/
lemma toLower_space_eq {c : Char} (h : isPySpace c = true) : Char.toLower c = c := by
  simp only [isPySpace, Bool.or_eq_true, beq_iff_eq] at h
  rcases h with ((((h | h) | h) | h) | h) | h <;> subst h <;> decide

/-- The sentinel set written out as character lists. -/
lemma missingTokens_eq :
    missingTokens = [['n', 'a'], ['n', '/', 'a'], ['n', 'u', 'l', 'l'],
                     ['n', 'o', 'n', 'e']] := rfl

/-- A string whose lower-casing is a sentinel token starts with a
non-whitespace character (every token starts with `n`). -/
lemma sentinel_head_not_space {c : Char} {w : List Char}
    (h : pyLower (c :: w) ∈ missingTokens) : isPySpace c = false := by
  have hc : Char.toLower c = 'n' := by
    rw [missingTokens_eq] at h
    simp only [pyLower, List.map_cons, List.mem_cons, List.not_mem_nil, or_false,
      List.cons.injEq] at h
    rcases h with ⟨h1, _⟩ | ⟨h1, _⟩ | ⟨h1, _⟩ | ⟨h1, _⟩ <;> exact h1
  cases hsp : isPySpace c with
  | false => rfl
  | true =>
    exfalso
    rw [toLower_space_eq hsp] at hc
    subst hc
    exact absurd hsp (by decide)

/-- A string whose lower-casing is a sentinel token ends with a
non-whitespace character (the tokens end in `a`, `l` or `e`). -/
lemma sentinel_last_not_space {d : Char} {r w : List Char}
    (h : pyLower w ∈ missingTokens) (hrev : w.reverse = d :: r) :
    isPySpace d = false := by
  have hml : Char.toLower d :: pyLower r = (pyLower w).reverse := by
    have h2 : pyLower w.reverse = (pyLower w).reverse := by
      simp [pyLower, List.map_reverse]
    rw [← h2, hrev]
    rfl
  have hd : Char.toLower d = 'a' ∨ Char.toLower d = 'l' ∨ Char.toLower d = 'e' := by
    rw [missingTokens_eq] at h
    simp only [List.mem_cons, List.not_mem_nil, or_false] at h
    rcases h with h | h | h | h
    · rw [h] at hml; simp at hml; exact Or.inl hml.1
    · rw [h] at hml; simp at hml; exact Or.inl hml.1
    · rw [h] at hml; simp at hml; exact Or.inr (Or.inl hml.1)
    · rw [h] at hml; simp at hml; exact Or.inr (Or.inr hml.1)
  cases hsp : isPySpace d with
  | false => rfl
  | true =>
    exfalso
    rw [toLower_space_eq hsp] at hd
    rcases hd with hd | hd | hd <;> subst hd <;> exact absurd hsp (by decide)

/-- Stripping removes arbitrary whitespace padding around an (empty or
sentinel-shaped) core and leaves the core itself untouched. -/
lemma pyStrip_pad {pre w post : List Char}
    (hpre : pre.all isPySpace = true) (hpost : post.all isPySpace = true)
    (hw : w = [] ∨ pyLower w ∈ missingTokens) :
    pyStrip (pre ++ w ++ post) = w := by
  rcases hw with rfl | hw
  · unfold pyStrip
    rw [List.append_nil]
    rw [dropWhile_append_of_all post pre hpre]
    rw [dropWhile_eq_nil_of_all hpost]
    rfl
  · have hne : w ≠ [] := by
      intro he
      rw [he, missingTokens_eq] at hw
      simp [pyLower] at hw
    obtain ⟨c, t, rfl⟩ : ∃ c t, w = c :: t := by
      cases w with
      | nil => exact absurd rfl hne
      | cons c t => exact ⟨c, t, rfl⟩
    have hc : isPySpace c = false := sentinel_head_not_space hw
    obtain ⟨d, r, hrev⟩ : ∃ d r, (c :: t).reverse = d :: r := by
      cases hR : (c :: t).reverse with
      | nil => exact absurd (congrArg List.length hR) (by simp)
      | cons d r => exact ⟨d, r, rfl⟩
    have hd : isPySpace d = false := sentinel_last_not_space hw hrev
    have hpr : post.reverse.all isPySpace = true := by
      rw [List.all_reverse]; exact hpost
    unfold pyStrip
    rw [List.append_assoc]
    rw [dropWhile_append_of_all ((c :: t) ++ post) pre hpre]
    rw [show ((c :: t) ++ post).dropWhile isPySpace = (c :: t) ++ post from
      dropWhile_cons_of_neg (t ++ post) hc]
    rw [List.reverse_append]
    rw [dropWhile_append_of_all ((c :: t).reverse) post.reverse hpr]
    rw [hrev]
    rw [dropWhile_cons_of_neg r hd]
    rw [← hrev]
    rw [List.reverse_reverse]

/-- C4: `None` maps to the missing marker, and every textual input that is a
sentinel (`""`, `"na"`, `"n/a"`, `"null"`, `"none"`) in any letter case and
with arbitrary whitespace padding maps to the missing marker — matching
happens after trimming and lower-casing. -/
theorem sentinel_missing :
    currency_to_float RawValue.none = some PyFloat.nan ∧
    ∀ (pre w post : List Char), pre.all isPySpace = true → post.all isPySpace = true →
      (w = [] ∨ pyLower w ∈ missingTokens) →
      currency_to_float (RawValue.str (String.mk (pre ++ w ++ post))) = some PyFloat.nan := by
  refine ⟨rfl, ?_⟩
  intro pre w post hpre hpost hw
  simp only [currency_to_float]
  rw [show (String.mk (pre ++ w ++ post)).toList = pre ++ w ++ post from rfl]
  rw [pyStrip_pad hpre hpost hw, if_pos hw]

/-- C4 (witness): the padded mixed-case sentinel `"  N/a\t"` is mapped to the
missing marker. -/
theorem sentinel_missing_witness :
    currency_to_float (RawValue.str (String.mk ([' ', ' '] ++ ['N', '/', 'a'] ++ ['\t'])))
      = some PyFloat.nan :=
  sentinel_missing.2 [' ', ' '] ['N', '/', 'a'] ['\t'] (by decide) (by decide)
    (Or.inr (by decide))

/-- C2 (amended): for every textual input the function computes exactly the
spec's pipeline — trim, sentinel check after lower-casing, removal of every
`$` and `,`, trim — with step (e) amended to Python's actual `float` grammar
(optional `+`/`-` sign, digits with at most one decimal point and an
optional exponent part, underscores between digits, case-insensitive
`inf`/`infinity`/`nan`); every parse failure yields the missing marker. -/
theorem text_branch_refines_spec_pipeline (s : String) :
    currency_to_float (RawValue.str s) = some (spec_normalize_text s) := by
  simp only [currency_to_float, spec_normalize_text]
  rw [pyReplace_dollar_comma, option_match_some, apply_ite Option.some]
  exact if_congr (by simp [pyLower]) rfl rfl

end CurrencyNorm
